import Mathlib

/-!
Verification development for `src/Workflows/workflow-update-locations.py`.

The script repairs a tree of workflow symlinks: every link
`Workflows/<seg1>/…/<segN>/workflow.yml` must be a symlink whose target is the
relative path to `.github/workflows/<seg1>--…--<segN>.yml`, the target file
must exist, and the target file's embedded `name:` line must hold the quoted
display name `<seg1>/…/<segN>`.  After processing every link, files in
`.github/workflows` that were not produced by a processed link are removed.

The embedding below models the destination directory as an association list
from filenames to file contents, a workflow link as its parent-directory path
components together with its symlink state and literal target, and every
side-effecting filesystem call as a pure state transformation that also emits
an `Op` event, so that "performs no mutation" is expressible as an empty
trace.
-/

namespace WorkflowUpdate

/-- Destination directory `.github/workflows`, as path components
(`GITHUB_WORKFLOWS_DIR` in the script). -/
def GITHUB_WORKFLOWS_DIR : List String := [".github", "workflows"]

/-- Flag `PREVENT_RELINK_TARGET` from the script (set to `False` there). -/
def PREVENT_RELINK_TARGET : Bool := false

/-- Flag `PREVENT_RENAME_OF_WORKFLOW_FILE` from the script (`False`). -/
def PREVENT_RENAME_OF_WORKFLOW_FILE : Bool := false

/-- Flag `PREVENT_EDIT_WORKFLOW_NAME` from the script (`False`). -/
def PREVENT_EDIT_WORKFLOW_NAME : Bool := false

/-- Flag `PREVENT_UNLINK_UNRECOGNIZED_WORKFLOW_FILES` from the script (`False`). -/
def PREVENT_UNLINK_UNRECOGNIZED_WORKFLOW_FILES : Bool := false

/-- Contents of the destination directory `.github/workflows`: an association
list mapping each regular file's name to its text content. -/
abbrev Files := List (String × String)

/-- Look a filename up in the destination directory (`Path.is_file` /
`Path.read_text` on `GITHUB_WORKFLOWS_DIR / name`). -/
def lookupF : Files → String → Option String
  | [], _ => none
  | (k, v) :: r, n => if k = n then some v else lookupF r n

/-- Write a file (`Path.write_text`): replace the content in place if the name
exists, otherwise create the entry. -/
def setF : Files → String → String → Files
  | [], n, c => [(n, c)]
  | (k, v) :: r, n, c => if k = n then (k, c) :: r else (k, v) :: setF r n c

/-- Remove a file by name. -/
def removeF : Files → String → Files
  | [], _ => []
  | (k, v) :: r, n => if k = n then removeF r n else (k, v) :: removeF r n

/-- POSIX `Path.rename(old, new)`: move the content of `old` to `new`,
silently replacing any existing file named `new` (this is `os.rename`
semantics on Linux, which the script relies on via `PosixPath`). Only called
by the script when `old` exists. -/
def renameF (fs : Files) (old new : String) : Files :=
  match lookupF fs old with
  | none => fs
  | some c => setF (removeF fs old) new c

/-- Character class `[a-zA-Z0-9_]` of `WF_FILENAME_PATTERN`. -/
def isWordChar (c : Char) : Bool := c.isAlphanum || c = '_'

/-- Character class `[a-zA-Z0-9_.-]` of `WF_FILENAME_PATTERN`. -/
def isInnerChar (c : Char) : Bool := isWordChar c || c = '.' || c = '-'

/-- Matcher for the suffix `[a-zA-Z0-9_.-]*[a-zA-Z0-9_]$` of
`WF_FILENAME_PATTERN`: a nonempty string whose last character is a word
character and whose earlier characters are inner characters. -/
def matchTail : List Char → Bool
  | [] => false
  | [c] => isWordChar c
  | c :: rest => isInnerChar c && matchTail rest

/-- Matcher for the core of `WF_FILENAME_PATTERN =
^[a-zA-Z0-9_][a-zA-Z0-9_.-]*[a-zA-Z0-9_]$` (without the Python `$`
end-of-line subtlety): first character a word character, then `matchTail`. -/
def matchCore : List Char → Bool
  | [] => false
  | c :: rest => isWordChar c && matchTail rest

/-- `WorkflowLink.is_str_valid_wf_filename`: Python's `re.match` with this
pattern succeeds iff the whole string matches the core pattern, or the string
ends in a single trailing newline and everything before it matches (Python's
`$` without `re.MULTILINE` also matches just before a final `'\n'`). -/
def is_str_valid_wf_filename (s : String) : Bool :=
  matchCore s.data || (s.data.getLast? == some '\n' && matchCore s.data.dropLast)

/-- `sep.join(parts)` from Python. -/
def joinSep (sep : String) : List String → String
  | [] => ""
  | [x] => x
  | x :: y :: t => x ++ sep ++ joinSep sep (y :: t)

/-- A workflow link found by the walk: `parentParts` are the path components
of the directory containing the `workflow.yml` leaf (the walk starts at
`Workflows`, so the first component is `"Workflows"` for every link the
driver actually visits); `isSymlink` records whether the path is a symlink,
and `target` is the literal symlink target, as path components. -/
structure Link where
  parentParts : List String
  isSymlink : Bool
  target : List String
  deriving Repr, DecidableEq

/-- `WorkflowLink._get_wf_name_norm_parts`:
`self.relative_to(MY_WORKFLOWS_DIR).parent.parts`, i.e. the directory
components below `Workflows` (the leading `Workflows` component is stripped,
the `workflow.yml` leaf is not part of `parentParts` to begin with). -/
def nameNormParts (l : Link) : List String := l.parentParts.drop 1

/-- `WorkflowLink._get_wf_name_norm`: `"/".join(parts)`. -/
def wf_name_norm (l : Link) : String := joinSep "/" (nameNormParts l)

/-- `WorkflowLink._get_wf_filename_norm`: `"--".join(parts) + ".yml"`. -/
def wf_filename_norm (l : Link) : String := joinSep "--" (nameNormParts l) ++ ".yml"

/-- `WorkflowLink.wf_filename`, i.e. `self.target.name`: the final component
of the literal target (the script only ever exercises targets that end in a
real filename). -/
def targetName (l : Link) : String := (l.target.getLast?).getD ""

/-- `WorkflowLink._get_target_norm`: `os.path.relpath` from the link's parent
directory to `GITHUB_WORKFLOWS_DIR / wf_filename_norm`; the two trees share
no prefix, so this is one `..` per parent component followed by the
destination path. -/
def target_norm (l : Link) : List String :=
  List.replicate l.parentParts.length ".." ++ GITHUB_WORKFLOWS_DIR ++ [wf_filename_norm l]

/-- `WorkflowLink.subpath_parts_are_valid`: the first part failing
`is_str_valid_wf_filename`, or `none` when every part is valid. -/
def subpath_parts_are_valid (l : Link) : Option String :=
  (nameNormParts l).find? (fun p => !(is_str_valid_wf_filename p))

/-- Lexical path normalization used to model how the OS resolves the link's
literal relative target against the link's parent directory: a `".."`
component pops the previous component (components other than `".."` are
pushed; a `".."` on an empty or `".."`-topped stack is kept, matching
resolution of paths that escape upward). -/
def normPathAux : List String → List String → List String
  | stack, [] => stack.reverse
  | stack, c :: rest =>
    if c = ".." then
      match stack with
      | [] => normPathAux [".."] rest
      | top :: s => if top = ".." then normPathAux (".." :: top :: s) rest else normPathAux s rest
    else normPathAux (c :: stack) rest

/-- Normalize a component path. -/
def normPath (l : List String) : List String := normPathAux [] l

/-- The path (relative to the project root, where the script `chdir`s) that
the link's literal target resolves to. -/
def resolveLink (l : Link) : List String := normPath (l.parentParts ++ l.target)

/-- The destination-directory filename the link resolves to, if its target
resolves into `.github/workflows`; `none` otherwise.  `read_text` /
`write_text` through the link act on this file. -/
def resolvedDestFile (l : Link) : Option String :=
  let r := resolveLink l
  if r.length = 3 ∧ r.take 2 = GITHUB_WORKFLOWS_DIR then r.getLast? else none

/-- Filesystem mutation events, one per side-effecting call the script makes. -/
inductive Op where
  | rename (oldName newName : String)
  | unlink (linkParts : List String)
  | symlink (linkParts : List String) (tgt : List String)
  | writeFile (fname : String) (content : String)
  | deleteFile (fname : String)
  deriving Repr, DecidableEq

/-- Per-link failure conditions, mirroring the three `_LogCrit` reports. -/
inductive Failure where
  | notSymlink
  | invalidPart (part : String)
  | unrecoverable
  deriving Repr, DecidableEq

/-- `WorkflowLink._relink_to_target_norm`: unlink the symlink and re-create it
pointing at `target_norm` (both calls guarded by `PREVENT_RELINK_TARGET`). -/
def relink_to_target_norm (l : Link) : Link × List Op :=
  if PREVENT_RELINK_TARGET then (l, [])
  else ({ l with isSymlink := true, target := target_norm l },
        [Op.unlink l.parentParts, Op.symlink l.parentParts (target_norm l)])

/-- Result of `validate_and_fix_link`: the Python return value, the link in
its possibly-relinked state, the destination directory, and the trace. -/
structure FixResult where
  ok : Bool
  link : Link
  files : Files
  trace : List Op
  deriving Repr, DecidableEq

/-- `WorkflowLink.validate_and_fix_link`.  The source tests
`not wf_path.is_file()` first and then `wf_filename != wf_filename_norm` and
`target != target_norm`; the branches below are the same four cases with the
conditions phrased positively. -/
def validate_and_fix_link (l : Link) (fs : Files) : FixResult :=
  match lookupF fs (targetName l) with
  | none =>
    match lookupF fs (wf_filename_norm l) with
    | none => ⟨false, l, fs, []⟩
    | some _ =>
      let r := relink_to_target_norm l
      ⟨true, r.1, fs, r.2⟩
  | some _ =>
    if targetName l = wf_filename_norm l then
      if l.target = target_norm l then ⟨true, l, fs, []⟩
      else
        let r := relink_to_target_norm l
        ⟨true, r.1, fs, r.2⟩
    else
      let fs2 := if PREVENT_RENAME_OF_WORKFLOW_FILE then fs
                 else renameF fs (targetName l) (wf_filename_norm l)
      let renOps : List Op := if PREVENT_RENAME_OF_WORKFLOW_FILE then []
                 else [Op.rename (targetName l) (wf_filename_norm l)]
      let r := relink_to_target_norm l
      ⟨true, r.1, fs2, renOps ++ r.2⟩

/-- Predicate `[ \t]` of the `name:` pattern. -/
def wsChar (c : Char) : Bool := c = ' ' || c = '\t'

/-- Python `re.compile(r'^(name:)[ \t]*(.*)').search(content)`: without
`re.MULTILINE` the `^` anchors at position 0 only, so the match exists iff
the content starts with the five characters `name:`; group 2 is then the rest
of the first line after the maximal run of spaces/tabs, and the returned
triple is (whitespace run, group 2, remainder starting at the first newline). -/
def nameLineMatch (l : List Char) : Option (List Char × List Char × List Char) :=
  if l.take 5 = "name:".data then
    let r := l.drop 5
    let ws := r.takeWhile wsChar
    let r1 := r.dropWhile wsChar
    let val := r1.takeWhile (fun c => c != '\n')
    let rest := r1.dropWhile (fun c => c != '\n')
    some (ws, val, rest)
  else none

/-- The `new_content` that `_ensure_has_correct_name` computes: `""` when the
matched value already equals the quoted name (Python leaves `new_content`
falsy), the `_pattern.sub(r'\1 ' + new_name_quoted, …)` result when it
differs, and the prepended line when there is no match. -/
def ensure_new_content (quoted old : String) : String :=
  match nameLineMatch old.data with
  | some (_ws, val, rest) =>
    if String.mk val = quoted then ""
    else "name: " ++ quoted ++ String.mk rest
  | none => "name: " ++ quoted ++ "\n" ++ old

/-- `new_name_quoted` from `_ensure_has_correct_name`. -/
def quotedName (l : Link) : String := "\"" ++ wf_name_norm l ++ "\""

/-- The content of the target file after the patch step of
`_ensure_has_correct_name` (the write happens exactly when the computed
`new_content` is nonempty and differs from the old content). -/
def outC (quoted old : String) : String :=
  let newC := ensure_new_content quoted old
  if newC ≠ "" ∧ newC ≠ old then newC else old

/-- `WorkflowLink._ensure_has_correct_name`: read through the link, compute
`new_content`, and write it back when it is nonempty and different (guarded
by `PREVENT_EDIT_WORKFLOW_NAME`).  The two `none` fallbacks are unreachable
in the script's call sites (the method runs only after a successful fix, when
the link resolves to an existing canonical file; `read_text` would raise
otherwise). -/
def ensure_has_correct_name (l : Link) (fs : Files) : Files × List Op :=
  match resolvedDestFile l with
  | none => (fs, [])
  | some fname =>
    match lookupF fs fname with
    | none => (fs, [])
    | some old =>
      let newC := ensure_new_content (quotedName l) old
      if newC ≠ "" ∧ newC ≠ old then
        if PREVENT_EDIT_WORKFLOW_NAME then (fs, [])
        else (setF fs fname newC, [Op.writeFile fname newC])
      else (fs, [])

/-- Result of `validate_and_process_link`: `failure = none` corresponds to the
Python method returning `True`. -/
structure StepResult where
  failure : Option Failure
  link : Link
  files : Files
  trace : List Op
  deriving Repr, DecidableEq

/-- `WorkflowLink.validate_and_process_link`: symlink check, path-segment
validation, `validate_and_fix_link`, then `_ensure_has_correct_name`. -/
def validate_and_process_link (l : Link) (fs : Files) : StepResult :=
  if l.isSymlink = true then
    match subpath_parts_are_valid l with
    | some part => ⟨some (Failure.invalidPart part), l, fs, []⟩
    | none =>
      let r := validate_and_fix_link l fs
      if r.ok = true then
        let e := ensure_has_correct_name r.link r.files
        ⟨none, r.link, e.1, r.trace ++ e.2⟩
      else ⟨some Failure.unrecoverable, r.link, r.files, r.trace⟩
  else ⟨some Failure.notSymlink, l, fs, []⟩

/-- Result of one walk over the links: `valid` is the list the Python method
returns (the links whose processing returned `True`, in walk order), `links`
is every walked link in its post-run state, plus the directory and trace. -/
structure RunResult where
  valid : List Link
  links : List Link
  files : Files
  trace : List Op
  deriving Repr, DecidableEq

/-- `WorkflowLink.find_validate_and_fix_links`, with the walk's link list made
explicit: process each link in order, collecting the ones that succeed. -/
def find_validate_and_fix_links : List Link → Files → RunResult
  | [], fs => ⟨[], [], fs, []⟩
  | l :: rest, fs =>
    let s := validate_and_process_link l fs
    let r := find_validate_and_fix_links rest s.files
    ⟨(if s.failure = none then s.link :: r.valid else r.valid),
     s.link :: r.links, r.files, s.trace ++ r.trace⟩

/-- `remove_bad_workflow_files`: delete every destination file whose name is
not on the whitelist (each unlink guarded by the sweep flag). -/
def remove_bad_workflow_files (wl : List String) (fs : Files) : Files × List Op :=
  if PREVENT_UNLINK_UNRECOGNIZED_WORKFLOW_FILES then (fs, [])
  else (fs.filter (fun p => wl.contains p.1),
        (fs.filter (fun p => !(wl.contains p.1))).map (fun p => Op.deleteFile p.1))

/-- Result of `main`: the processed links, destination directory, trace, and
the process exit status. -/
structure MainResult where
  valid : List Link
  links : List Link
  files : Files
  trace : List Op
  status : Nat
  deriving Repr, DecidableEq

/-- `main`: walk and fix all links, build the whitelist
`{link.wf_filename for link in workflow_links}`, sweep, `return 0`. -/
def mainRun (links : List Link) (fs : Files) : MainResult :=
  let r := find_validate_and_fix_links links fs
  let wl := r.valid.map targetName
  let sw := remove_bad_workflow_files wl r.files
  ⟨r.valid, r.links, sw.1, r.trace ++ sw.2, 0⟩

/-- Split a character list into its `'\n'`-separated lines (accumulator-based;
used only to state spec-level properties about file contents). -/
def splitLinesAux : List Char → List Char → List (List Char)
  | acc, [] => [acc.reverse]
  | acc, c :: rest =>
    if c = '\n' then acc.reverse :: splitLinesAux [] rest
    else splitLinesAux (c :: acc) rest

/-- Lines of a character list. -/
def splitLines (l : List Char) : List (List Char) := splitLinesAux [] l

/-- Does a line start with the key token `name:`? -/
def isNameLine (ln : List Char) : Bool := ln.take 5 == "name:".data

/-- Modelled from the spec: the value of the first line of `content` matching
`^(name:)[ \t]*(.*)` under the spec's line-anchored reading ("finds the first
line matching … anywhere in the file"): the first `name:`-initial line with
its key and leading whitespace stripped. -/
def firstNameLineValue (content : String) : Option (List Char) :=
  ((splitLines content.data).find? isNameLine).map (fun ln => (ln.drop 5).dropWhile wsChar)

/-- Allowed-character rule as the claim (and the script's own `_LogCrit`
message) states it: alphanumeric, underscore, hyphen, period. -/
def allowedChar (c : Char) : Bool := c.isAlphanum || c = '_' || c = '-' || c = '.'

/-- Hyphen-or-period test for the start/end rule. -/
def hyphenPeriod (c : Char) : Bool := c = '-' || c = '.'

/-- Modelled from the spec: segment acceptance as the claim describes it — the
segment consists solely of allowed characters and does not start or end with
a hyphen or period (a segment is a directory name, hence nonempty). -/
def spec_segment_ok (s : String) : Bool :=
  !s.data.isEmpty && s.data.all allowedChar &&
  !(s.data.head?.elim false hyphenPeriod) && !(s.data.getLast?.elim false hyphenPeriod)

/-- Modelled from the spec: patch a single matching line, replacing only the
captured value and preserving the `name:` key token and the leading
whitespace exactly. -/
def spec_patch_line (quoted : String) (ln : List Char) : List Char :=
  let ws := (ln.drop 5).takeWhile wsChar
  let v := (ln.drop 5).dropWhile wsChar
  if String.mk v = quoted then ln else "name:".data ++ ws ++ quoted.data

/-- Modelled from the spec: rewrite the first `name:`-initial line, leaving
every other line untouched. -/
def spec_patch_lines (quoted : String) : List (List Char) → List (List Char)
  | [] => []
  | ln :: rest =>
    if isNameLine ln then spec_patch_line quoted ln :: rest
    else ln :: spec_patch_lines quoted rest

/-- Join lines back with `'\n'`. -/
def joinLines : List (List Char) → List Char
  | [] => []
  | [ln] => ln
  | ln :: ln2 :: rest => ln ++ '\n' :: joinLines (ln2 :: rest)

/-- Modelled from the spec: the content patcher as claim C3 describes it —
find the first line matching `^(name:)[ \t]*(.*)` anywhere in the file
(line-anchored), replace only the captured value, keep every other line
byte-identical. -/
def spec_patch (quoted content : String) : String :=
  String.mk (joinLines (spec_patch_lines quoted (splitLines content.data)))

/-- Concrete link `Workflows/aa/workflow.yml` pointing at `bb.yml`. -/
def exA : Link := ⟨["Workflows", "aa"], true, ["..", "..", ".github", "workflows", "bb.yml"]⟩

/-- Concrete link `Workflows/bb/workflow.yml` pointing at `old.yml`. -/
def exB : Link := ⟨["Workflows", "bb"], true, ["..", "..", ".github", "workflows", "old.yml"]⟩

/-- Concrete destination directory holding only `old.yml`. -/
def exFs : Files := [("old.yml", "x")]

/-- Concrete link `Workflows/aa/workflow.yml` pointing at `old.yml`. -/
def exC : Link := ⟨["Workflows", "aa"], true, ["..", "..", ".github", "workflows", "old.yml"]⟩

/-- Concrete destination directory where both `old.yml` and the canonical
`aa.yml` exist. -/
def exFs2 : Files := [("old.yml", "X"), ("aa.yml", "Y")]

/-- Concrete link whose single path segment `"ab\n"` carries a trailing
newline — accepted by `WF_FILENAME_PATTERN` because Python's `$` also matches
just before a final newline.  Its target is already canonical. -/
def exNl : Link := ⟨["Workflows", "ab\n"], true, ["..", "..", ".github", "workflows", "ab\n.yml"]⟩

/-- Concrete destination directory for `exNl`: the canonical file exists. -/
def exNlFs : Files := [("ab\n.yml", "x")]

/-! ### Association-list lemmas -/

theorem lookupF_setF : ∀ (fs : Files) (n c m : String),
    lookupF (setF fs n c) m = if n = m then some c else lookupF fs m
  | [], _, _, _ => rfl
  | (k, v) :: tl, n, c, m => by
    show lookupF (if k = n then (k, c) :: tl else (k, v) :: setF tl n c) m = _
    by_cases hk : k = n
    · rw [if_pos hk]
      subst hk
      show (if k = m then some c else lookupF tl m) = _
      by_cases h : k = m
      · rw [if_pos h, if_pos h]
      · rw [if_neg h, if_neg h]
        show _ = lookupF ((k, v) :: tl) m
        show _ = if k = m then some v else lookupF tl m
        rw [if_neg h]
    · rw [if_neg hk]
      show (if k = m then some v else lookupF (setF tl n c) m) = _
      by_cases h : k = m
      · rw [if_pos h]
        have hnm : ¬ n = m := fun e => hk (h.trans e.symm)
        rw [if_neg hnm]
        show _ = if k = m then some v else lookupF tl m
        rw [if_pos h]
      · rw [if_neg h, lookupF_setF tl n c m]
        by_cases h2 : n = m
        · rw [if_pos h2, if_pos h2]
        · rw [if_neg h2, if_neg h2]
          show _ = if k = m then some v else lookupF tl m
          rw [if_neg h]

theorem lookupF_removeF : ∀ (fs : Files) (n m : String),
    lookupF (removeF fs n) m = if n = m then none else lookupF fs m
  | [], n, m => by
    show (none : Option String) = if n = m then none else none
    by_cases h : n = m
    · rw [if_pos h]
    · rw [if_neg h]
  | (k, v) :: tl, n, m => by
    show lookupF (if k = n then removeF tl n else (k, v) :: removeF tl n) m = _
    by_cases hk : k = n
    · rw [if_pos hk, lookupF_removeF tl n m]
      subst hk
      by_cases h2 : k = m
      · rw [if_pos h2, if_pos h2]
      · rw [if_neg h2, if_neg h2]
        show _ = if k = m then some v else lookupF tl m
        rw [if_neg h2]
    · rw [if_neg hk]
      show (if k = m then some v else lookupF (removeF tl n) m) = _
      by_cases h : k = m
      · rw [if_pos h]
        have hnm : ¬ n = m := fun e => hk (h.trans e.symm)
        rw [if_neg hnm]
        show _ = if k = m then some v else lookupF tl m
        rw [if_pos h]
      · rw [if_neg h, lookupF_removeF tl n m]
        by_cases h2 : n = m
        · rw [if_pos h2, if_pos h2]
        · rw [if_neg h2, if_neg h2]
          show _ = if k = m then some v else lookupF tl m
          rw [if_neg h]

theorem lookupF_renameF_new (fs : Files) (old new c : String)
    (h : lookupF fs old = some c) :
    lookupF (renameF fs old new) new = some c := by
  rw [renameF, h, lookupF_setF, if_pos rfl]

theorem lookupF_renameF_old (fs : Files) (old new c : String)
    (h : lookupF fs old = some c) (hne : ¬ old = new) :
    lookupF (renameF fs old new) old = none := by
  have hnn : ¬ new = old := fun e => hne e.symm
  rw [renameF, h, lookupF_setF, if_neg hnn, lookupF_removeF, if_pos rfl]

theorem lookupF_filter_contains (wl : List String) : ∀ (fs : Files) (n : String),
    lookupF (fs.filter (fun p => wl.contains p.1)) n =
      if wl.contains n then lookupF fs n else none
  | [], n => by
    show (none : Option String) = if wl.contains n then none else none
    by_cases h : wl.contains n
    · rw [if_pos h]
    · rw [if_neg h]
  | (k, v) :: tl, n => by
    rw [List.filter_cons]
    by_cases hk : wl.contains k = true
    · rw [if_pos hk]
      show (if k = n then some v else lookupF (tl.filter (fun p => wl.contains p.1)) n) = _
      by_cases h : k = n
      · rw [if_pos h, if_pos (h ▸ hk)]
        show _ = if k = n then some v else lookupF tl n
        rw [if_pos h]
      · rw [if_neg h, lookupF_filter_contains wl tl n]
        by_cases h2 : wl.contains n = true
        · rw [if_pos h2, if_pos h2]
          show _ = if k = n then some v else lookupF tl n
          rw [if_neg h]
        · rw [if_neg h2, if_neg h2]
    · rw [if_neg hk, lookupF_filter_contains wl tl n]
      by_cases h2 : wl.contains n = true
      · have h : ¬ k = n := fun e => hk (e ▸ h2)
        rw [if_pos h2, if_pos h2]
        show _ = if k = n then some v else lookupF tl n
        rw [if_neg h]
      · rw [if_neg h2, if_neg h2]

/-! ### Branch-equation lemmas for the script's functions -/

theorem relink_eq (l : Link) :
    relink_to_target_norm l =
      ({ l with isSymlink := true, target := target_norm l },
       [Op.unlink l.parentParts, Op.symlink l.parentParts (target_norm l)]) := by
  simp [relink_to_target_norm, PREVENT_RELINK_TARGET]

theorem fix_eq_unrec (l : Link) (fs : Files)
    (h1 : lookupF fs (targetName l) = none)
    (h2 : lookupF fs (wf_filename_norm l) = none) :
    validate_and_fix_link l fs = ⟨false, l, fs, []⟩ := by
  simp [validate_and_fix_link, h1, h2]

theorem fix_eq_relink_dangling (l : Link) (fs : Files) (c : String)
    (h1 : lookupF fs (targetName l) = none)
    (h2 : lookupF fs (wf_filename_norm l) = some c) :
    validate_and_fix_link l fs =
      ⟨true, { l with isSymlink := true, target := target_norm l }, fs,
       [Op.unlink l.parentParts, Op.symlink l.parentParts (target_norm l)]⟩ := by
  simp [validate_and_fix_link, h1, h2, relink_eq]

theorem fix_eq_noop (l : Link) (fs : Files) (c : String)
    (h1 : lookupF fs (targetName l) = some c)
    (h2 : targetName l = wf_filename_norm l)
    (h3 : l.target = target_norm l) :
    validate_and_fix_link l fs = ⟨true, l, fs, []⟩ := by
  have h1' := h1
  rw [h2] at h1'
  simp [validate_and_fix_link, h1, h1', h2, h3]

theorem fix_eq_relink_depth (l : Link) (fs : Files) (c : String)
    (h1 : lookupF fs (targetName l) = some c)
    (h2 : targetName l = wf_filename_norm l)
    (h3 : ¬ l.target = target_norm l) :
    validate_and_fix_link l fs =
      ⟨true, { l with isSymlink := true, target := target_norm l }, fs,
       [Op.unlink l.parentParts, Op.symlink l.parentParts (target_norm l)]⟩ := by
  have h1' := h1
  rw [h2] at h1'
  simp [validate_and_fix_link, h1, h1', h2, h3, relink_eq]

theorem fix_eq_rename (l : Link) (fs : Files) (c : String)
    (h1 : lookupF fs (targetName l) = some c)
    (h2 : ¬ targetName l = wf_filename_norm l) :
    validate_and_fix_link l fs =
      ⟨true, { l with isSymlink := true, target := target_norm l },
       renameF fs (targetName l) (wf_filename_norm l),
       [Op.rename (targetName l) (wf_filename_norm l), Op.unlink l.parentParts,
        Op.symlink l.parentParts (target_norm l)]⟩ := by
  simp [validate_and_fix_link, h1, h2, relink_eq, PREVENT_RENAME_OF_WORKFLOW_FILE]

theorem process_not_symlink (l : Link) (fs : Files) (h : l.isSymlink = false) :
    validate_and_process_link l fs = ⟨some Failure.notSymlink, l, fs, []⟩ := by
  simp [validate_and_process_link, h]

theorem process_invalid (l : Link) (fs : Files) (part : String)
    (hsym : l.isSymlink = true) (hp : subpath_parts_are_valid l = some part) :
    validate_and_process_link l fs = ⟨some (Failure.invalidPart part), l, fs, []⟩ := by
  simp [validate_and_process_link, hsym, hp]

theorem process_unrec (l : Link) (fs : Files)
    (hsym : l.isSymlink = true) (hp : subpath_parts_are_valid l = none)
    (hok : (validate_and_fix_link l fs).ok = false) :
    validate_and_process_link l fs =
      ⟨some Failure.unrecoverable, (validate_and_fix_link l fs).link,
       (validate_and_fix_link l fs).files, (validate_and_fix_link l fs).trace⟩ := by
  simp [validate_and_process_link, hsym, hp, hok]

theorem process_ok (l : Link) (fs : Files)
    (hsym : l.isSymlink = true) (hp : subpath_parts_are_valid l = none)
    (hok : (validate_and_fix_link l fs).ok = true) :
    validate_and_process_link l fs =
      ⟨none, (validate_and_fix_link l fs).link,
       (ensure_has_correct_name (validate_and_fix_link l fs).link
         (validate_and_fix_link l fs).files).1,
       (validate_and_fix_link l fs).trace ++
         (ensure_has_correct_name (validate_and_fix_link l fs).link
           (validate_and_fix_link l fs).files).2⟩ := by
  simp [validate_and_process_link, hsym, hp, hok]

theorem run_cons (l : Link) (rest : List Link) (fs : Files) :
    find_validate_and_fix_links (l :: rest) fs =
      ⟨(if (validate_and_process_link l fs).failure = none
        then (validate_and_process_link l fs).link ::
          (find_validate_and_fix_links rest (validate_and_process_link l fs).files).valid
        else (find_validate_and_fix_links rest (validate_and_process_link l fs).files).valid),
       (validate_and_process_link l fs).link ::
         (find_validate_and_fix_links rest (validate_and_process_link l fs).files).links,
       (find_validate_and_fix_links rest (validate_and_process_link l fs).files).files,
       (validate_and_process_link l fs).trace ++
         (find_validate_and_fix_links rest (validate_and_process_link l fs).files).trace⟩ := rfl

/-- Last component of the normalized target is the normalized filename. -/
theorem getLast_target_norm (l : Link) :
    (target_norm l).getLast? = some (wf_filename_norm l) := by
  have : target_norm l =
      (List.replicate l.parentParts.length ".." ++ GITHUB_WORKFLOWS_DIR) ++
        [wf_filename_norm l] := by
    simp [target_norm, List.append_assoc]
  rw [this, List.getLast?_concat]

/-- The name of a link's target is the normalized filename once the link has
been relinked to its normalized target. -/
theorem targetName_of_norm (l : Link) (h : l.target = target_norm l) :
    targetName l = wf_filename_norm l := by
  simp [targetName, h, getLast_target_norm]

/-! ### List and string toolkit -/

theorem takeWhile_append_eq {α} (p : α → Bool) : ∀ (a b : List α),
    (∀ c ∈ a, p c = true) → (∀ c, b.head? = some c → p c = false) →
    (a ++ b).takeWhile p = a
  | [], b, _, hb => by
    cases b with
    | nil => rfl
    | cons x xs =>
      have hx := hb x rfl
      simp [List.takeWhile_cons, hx]
  | x :: a, b, ha, hb => by
    have hx := ha x (List.mem_cons_self x a)
    simp [List.takeWhile_cons, hx,
      takeWhile_append_eq p a b (fun c hc => ha c (List.mem_cons_of_mem x hc)) hb]

theorem dropWhile_append_eq {α} (p : α → Bool) : ∀ (a b : List α),
    (∀ c ∈ a, p c = true) → (∀ c, b.head? = some c → p c = false) →
    (a ++ b).dropWhile p = b
  | [], b, _, hb => by
    cases b with
    | nil => rfl
    | cons x xs =>
      have hx := hb x rfl
      simp [List.dropWhile_cons, hx]
  | x :: a, b, ha, hb => by
    have hx := ha x (List.mem_cons_self x a)
    simp [List.dropWhile_cons, hx,
      dropWhile_append_eq p a b (fun c hc => ha c (List.mem_cons_of_mem x hc)) hb]

theorem dropWhile_append_all {α} (p : α → Bool) : ∀ (a b : List α),
    (∀ c ∈ a, p c = true) → (a ++ b).dropWhile p = b.dropWhile p
  | [], _, _ => rfl
  | x :: a, b, ha => by
    have hx := ha x (List.mem_cons_self x a)
    simp [List.dropWhile_cons, hx,
      dropWhile_append_all p a b (fun c hc => ha c (List.mem_cons_of_mem x hc))]

theorem head?_dropWhile {α} (p : α → Bool) : ∀ (l : List α) (a : α),
    (l.dropWhile p).head? = some a → p a = false
  | [], a, h => by cases h
  | x :: l, a, h => by
    by_cases hx : p x = true
    · rw [List.dropWhile_cons, if_pos hx] at h
      exact head?_dropWhile p l a h
    · rw [List.dropWhile_cons, if_neg hx] at h
      cases h
      simpa using hx

theorem mem_takeWhile {α} (p : α → Bool) : ∀ (l : List α) (a : α),
    a ∈ l.takeWhile p → p a = true
  | [], a, h => by cases h
  | x :: l, a, h => by
    by_cases hx : p x = true
    · rw [List.takeWhile_cons, if_pos hx] at h
      rcases List.mem_cons.mp h with h | h
      · exact h ▸ hx
      · exact mem_takeWhile p l a h
    · rw [List.takeWhile_cons, if_neg hx] at h
      cases h

theorem head?_takeWhile {α} (p : α → Bool) (l : List α) (a : α)
    (h : (l.takeWhile p).head? = some a) : l.head? = some a := by
  cases l with
  | nil => cases h
  | cons x xs =>
    by_cases hx : p x = true
    · rw [List.takeWhile_cons, if_pos hx] at h
      cases h
      rfl
    · rw [List.takeWhile_cons, if_neg hx] at h
      cases h

theorem dropWhile_eq_self {α} (p : α → Bool) (l : List α)
    (h : ∀ c, l.head? = some c → p c = false) : l.dropWhile p = l := by
  cases l with
  | nil => rfl
  | cons x xs =>
    rw [List.dropWhile_cons, if_neg]
    simp [h x rfl]

theorem head?_append_left {α} (a b : List α) (c : α) (h : a.head? = some c) :
    (a ++ b).head? = some c := by
  cases a with
  | nil => cases h
  | cons x xs => exact h

theorem sdata_append (a b : String) : (a ++ b).data = a.data ++ b.data := rfl

theorem smk_data (s : String) : String.mk s.data = s := rfl

theorem data_mk (l : List Char) : (String.mk l).data = l := rfl

/-- Space and tab are not newlines. -/
theorem wsChar_ne_newline (c : Char) (h : wsChar c = true) : c ≠ '\n' := by
  intro hc
  subst hc
  simp [wsChar] at h

/-- The `name:` parse on a pre-decomposed input (completeness of the match
against Python's leftmost-greedy semantics). -/
theorem nameLineMatch_eq (ws val rest : List Char)
    (hws : ∀ c ∈ ws, wsChar c = true)
    (hhead : ∀ c, (val ++ rest).head? = some c → wsChar c = false)
    (hval : ∀ c ∈ val, c ≠ '\n')
    (hrest : ∀ c, rest.head? = some c → c = '\n') :
    nameLineMatch ("name:".data ++ (ws ++ (val ++ rest))) = some (ws, val, rest) := by
  have hlen : ("name:".data).length = 5 := rfl
  have htake : (("name:".data ++ (ws ++ (val ++ rest))).take 5) = "name:".data :=
    List.take_left' hlen
  have hdrop : (("name:".data ++ (ws ++ (val ++ rest))).drop 5) = ws ++ (val ++ rest) :=
    List.drop_left' hlen
  have hval' : ∀ c ∈ val, (c != '\n') = true := fun c hc => by
    simpa using hval c hc
  have hrest' : ∀ c, rest.head? = some c → (c != '\n') = false := fun c hc => by
    simp [hrest c hc]
  simp only [nameLineMatch, htake, hdrop, if_pos,
    takeWhile_append_eq wsChar ws (val ++ rest) hws hhead,
    dropWhile_append_eq wsChar ws (val ++ rest) hws hhead,
    takeWhile_append_eq _ val rest hval' hrest',
    dropWhile_append_eq _ val rest hval' hrest']

/-- Soundness of the `name:` parse: a successful match decomposes the input
and the parts carry the expected character properties. -/
theorem nameLineMatch_sound (d ws val rest : List Char)
    (h : nameLineMatch d = some (ws, val, rest)) :
    d = "name:".data ++ (ws ++ (val ++ rest)) ∧
    (∀ c ∈ ws, wsChar c = true) ∧
    (∀ c ∈ val, c ≠ '\n') ∧
    (∀ c, rest.head? = some c → c = '\n') ∧
    (∀ c, val.head? = some c → wsChar c = false) ∧
    (∀ c, (val ++ rest).head? = some c → wsChar c = false) := by
  by_cases ht : d.take 5 = "name:".data
  case neg =>
    rw [nameLineMatch, if_neg ht] at h
    cases h
  rw [nameLineMatch, if_pos ht] at h
  simp only [Option.some.injEq, Prod.mk.injEq] at h
  obtain ⟨hw, hv, hr⟩ := h
  subst hw
  subst hv
  subst hr
  refine ⟨?_, ?_, ?_, ?_, ?_, ?_⟩
  · conv_lhs => rw [← List.take_append_drop 5 d]
    rw [ht]
    congr 1
    rw [List.takeWhile_append_dropWhile, List.takeWhile_append_dropWhile]
  · exact fun c hc => mem_takeWhile wsChar _ c hc
  · intro c hc
    have := mem_takeWhile _ _ c hc
    simpa using this
  · intro c hc
    have := head?_dropWhile _ _ c hc
    simpa using this
  · intro c hc
    exact head?_dropWhile wsChar _ c (head?_takeWhile _ _ c hc)
  · intro c hc
    rw [List.takeWhile_append_dropWhile] at hc
    exact head?_dropWhile wsChar _ c hc

/-! ### Line-splitting lemmas -/

theorem splitLinesAux_append (l : List Char) (hl : ('\n' : Char) ∉ l) :
    ∀ (acc r : List Char), splitLinesAux acc (l ++ r) = splitLinesAux (l.reverse ++ acc) r := by
  induction l with
  | nil => intro acc r; rfl
  | cons c t ih =>
    intro acc r
    have hc : ¬ c = '\n' := fun e => hl (e ▸ List.mem_cons_self c t)
    show splitLinesAux acc (c :: (t ++ r)) = _
    rw [splitLinesAux, if_neg hc, ih (fun hm => hl (List.mem_cons_of_mem c hm)) (c :: acc) r]
    simp [List.reverse_cons, List.append_assoc]

theorem splitLines_single (l : List Char) (hl : ('\n' : Char) ∉ l) :
    splitLines l = [l] := by
  have h := splitLinesAux_append l hl [] []
  rw [List.append_nil] at h
  rw [splitLines, h, splitLinesAux]
  simp

theorem splitLines_append_newline (l r : List Char) (hl : ('\n' : Char) ∉ l) :
    splitLines (l ++ '\n' :: r) = l :: splitLines r := by
  rw [splitLines, splitLinesAux_append l hl [] ('\n' :: r), splitLinesAux, if_pos rfl]
  simp [splitLines]

/-- A line starting with the `name:` token is a name line. -/
theorem isNameLine_of_append (x : List Char) : isNameLine ("name:".data ++ x) = true := by
  have htake : (("name:".data ++ x).take 5) = "name:".data := List.take_left' rfl
  simp [isNameLine, htake]

/-! ### Content lemmas for the patcher -/

/-- Value extraction for a line of the form `name:` ++ ws ++ val. -/
theorem nameLineDropValue (ws val : List Char)
    (hws : ∀ c ∈ ws, wsChar c = true)
    (hvh : ∀ c, val.head? = some c → wsChar c = false) :
    ((("name:".data ++ (ws ++ val)).drop 5).dropWhile wsChar) = val := by
  have hlen : ("name:".data).length = 5 := rfl
  have hdrop : (("name:".data ++ (ws ++ val)).drop 5) = ws ++ val := List.drop_left' hlen
  rw [hdrop, dropWhile_append_all wsChar ws val hws]
  exact dropWhile_eq_self _ _ hvh

/-- First-line value of a content decomposed as a matched `name:` line plus
the remainder. -/
theorem firstNameLineValue_decomp (ws val rest : List Char)
    (hws : ∀ c ∈ ws, wsChar c = true)
    (hval : ∀ c ∈ val, c ≠ '\n')
    (hrest : ∀ c, rest.head? = some c → c = '\n')
    (hvh : ∀ c, val.head? = some c → wsChar c = false) :
    firstNameLineValue (String.mk ("name:".data ++ (ws ++ (val ++ rest)))) = some val := by
  have hline_nl : ('\n' : Char) ∉ ("name:".data ++ (ws ++ val)) := by
    intro hmem
    rcases List.mem_append.mp hmem with h | h
    · revert h
      decide
    · rcases List.mem_append.mp h with h | h
      · exact wsChar_ne_newline '\n' (hws _ h) rfl
      · exact hval _ h rfl
  have hvalue := nameLineDropValue ws val hws hvh
  cases hrd : rest with
  | nil =>
    rw [firstNameLineValue, data_mk, List.append_nil, splitLines_single _ hline_nl,
      List.find?_cons_of_pos _ (isNameLine_of_append _), Option.map_some', hvalue]
  | cons c t =>
    have hc : c = '\n' := hrest c (by rw [hrd]; rfl)
    subst hc
    have hd : ("name:".data ++ (ws ++ (val ++ '\n' :: t))) =
        ("name:".data ++ (ws ++ val)) ++ '\n' :: t := by
      simp [List.append_assoc]
    rw [firstNameLineValue, data_mk, hd, splitLines_append_newline _ _ hline_nl,
      List.find?_cons_of_pos _ (isNameLine_of_append _), Option.map_some', hvalue]

/-- First-line value of a content that the `name:` pattern matches. -/
theorem firstNameLineValue_parsed (old : String) (ws val rest : List Char)
    (h : nameLineMatch old.data = some (ws, val, rest)) :
    firstNameLineValue old = some val := by
  obtain ⟨hdec, hws, hval, hrest, hvh, _⟩ := nameLineMatch_sound _ _ _ _ h
  have hd : old = String.mk ("name:".data ++ (ws ++ (val ++ rest))) := by
    rw [← smk_data old, hdec]
  rw [hd]
  exact firstNameLineValue_decomp ws val rest hws hval hrest hvh

/-- First-line value of a content of the shape `"name: " ++ q ++ r` with `r`
empty or newline-initial. -/
theorem firstNameLineValue_start (q r : String) (c0 : Char)
    (hq0 : q.data.head? = some c0) (hws0 : wsChar c0 = false)
    (hnl : ('\n' : Char) ∉ q.data)
    (hr : ∀ c, r.data.head? = some c → c = '\n') :
    firstNameLineValue ("name: " ++ q ++ r) = some q.data := by
  have hdata : ("name: " ++ q ++ r).data =
      ("name:".data ++ ([' '] ++ (q.data ++ r.data))) := by
    rw [sdata_append, sdata_append]
    simp [List.append_assoc]
  have hd : ("name: " ++ q ++ r) =
      String.mk ("name:".data ++ ([' '] ++ (q.data ++ r.data))) := by
    rw [← smk_data ("name: " ++ q ++ r), hdata]
  rw [hd]
  exact firstNameLineValue_decomp [' '] q.data r.data (by decide)
    (fun c hc he => hnl (he ▸ hc)) hr
    (fun c hc => by rw [hq0] at hc; cases hc; exact hws0)

/-- The `name:` parse succeeds on `"name: " ++ q ++ r` with value `q`. -/
theorem nameLineMatch_start (q r : String) (c0 : Char)
    (hq0 : q.data.head? = some c0) (hws0 : wsChar c0 = false)
    (hnl : ('\n' : Char) ∉ q.data)
    (hr : ∀ c, r.data.head? = some c → c = '\n') :
    nameLineMatch ("name: " ++ q ++ r).data = some ([' '], q.data, r.data) := by
  have hdata : ("name: " ++ q ++ r).data =
      ("name:".data ++ ([' '] ++ (q.data ++ r.data))) := by
    rw [sdata_append, sdata_append]
    simp [List.append_assoc]
  rw [hdata]
  exact nameLineMatch_eq [' '] q.data r.data (by decide)
    (fun c hc => by
      have h2 : (q.data ++ r.data).head? = some c0 := head?_append_left _ _ _ hq0
      rw [h2] at hc
      cases hc
      exact hws0)
    (fun c hc he => hnl (he ▸ hc)) hr

/-- The patch output on an already-patched content is empty (no rewrite). -/
theorem ensure_new_content_start (q r : String) (c0 : Char)
    (hq0 : q.data.head? = some c0) (hws0 : wsChar c0 = false)
    (hnl : ('\n' : Char) ∉ q.data)
    (hr : ∀ c, r.data.head? = some c → c = '\n') :
    ensure_new_content q ("name: " ++ q ++ r) = "" := by
  have hm := nameLineMatch_start q r c0 hq0 hws0 hnl hr
  simp only [ensure_new_content, hm, smk_data, if_pos]

/-- A prepend/patch result is never the empty string. -/
theorem str_patch_ne_empty (q r : String) : "name: " ++ q ++ r ≠ "" := by
  intro h
  have hd := congrArg String.data h
  rw [sdata_append, sdata_append] at hd
  rcases List.append_eq_nil.mp hd with ⟨h1, _⟩
  rcases List.append_eq_nil.mp h1 with ⟨h2, _⟩
  exact absurd h2 (by decide)

/-- Case analysis of the patch step: either the content already carried the
quoted value and is untouched, or the result has the canonical
`"name: " ++ q ++ rest` shape. -/
theorem outC_cases (q old : String) :
    (outC q old = old ∧
      ∃ ws val rest, nameLineMatch old.data = some (ws, val, rest) ∧ String.mk val = q) ∨
    (∃ r : String, outC q old = "name: " ++ q ++ r ∧
      (∀ c, r.data.head? = some c → c = '\n')) := by
  simp only [outC]
  cases hm : nameLineMatch old.data with
  | none =>
    right
    have hassoc : "name: " ++ q ++ "\n" ++ old = "name: " ++ q ++ ("\n" ++ old) :=
      String.append_assoc _ _ _
    have hq : ensure_new_content q old = "name: " ++ q ++ ("\n" ++ old) := by
      simp only [ensure_new_content, hm]
      exact hassoc
    refine ⟨"\n" ++ old, ?_, ?_⟩
    · rw [hq]
      by_cases ho : ("name: " ++ q ++ ("\n" ++ old)) = old
      · rw [if_neg (fun hand => hand.2 ho)]
        exact ho.symm
      · rw [if_pos ⟨str_patch_ne_empty _ _, ho⟩]
    · intro c hc
      rw [sdata_append] at hc
      cases hc
      rfl
  | some triple =>
    obtain ⟨ws, val, rest⟩ := triple
    by_cases hv : String.mk val = q
    · left
      have hq : ensure_new_content q old = "" := by
        simp only [ensure_new_content, hm, if_pos hv]
      rw [hq, if_neg (fun hand => hand.1 rfl)]
      exact ⟨rfl, ws, val, rest, rfl, hv⟩
    · right
      obtain ⟨_, _, _, hrest, _, _⟩ := nameLineMatch_sound _ _ _ _ hm
      have hq : ensure_new_content q old = "name: " ++ q ++ String.mk rest := by
        simp only [ensure_new_content, hm, if_neg hv]
      refine ⟨String.mk rest, ?_, ?_⟩
      · rw [hq]
        by_cases ho : ("name: " ++ q ++ String.mk rest) = old
        · rw [if_neg (fun hand => hand.2 ho)]
          exact ho.symm
        · rw [if_pos ⟨str_patch_ne_empty _ _, ho⟩]
      · intro c hc
        rw [data_mk] at hc
        exact hrest c hc

/-- Patching is idempotent at the content level. -/
theorem ensure_new_content_outC (q old : String) (c0 : Char)
    (hq0 : q.data.head? = some c0) (hws0 : wsChar c0 = false)
    (hnl : ('\n' : Char) ∉ q.data) :
    ensure_new_content q (outC q old) = "" := by
  rcases outC_cases q old with ⟨ho, ws, val, rest, hm, hv⟩ | ⟨r, ho, hr⟩
  · rw [ho]
    simp only [ensure_new_content, hm, if_pos hv]
  · rw [ho]
    exact ensure_new_content_start q r c0 hq0 hws0 hnl hr

/-- After the patch step, the first `name:` line of the content holds the
quoted name. -/
theorem firstNameLineValue_outC (q old : String) (c0 : Char)
    (hq0 : q.data.head? = some c0) (hws0 : wsChar c0 = false)
    (hnl : ('\n' : Char) ∉ q.data) :
    firstNameLineValue (outC q old) = some q.data := by
  rcases outC_cases q old with ⟨ho, ws, val, rest, hm, hv⟩ | ⟨r, ho, hr⟩
  · rw [ho, firstNameLineValue_parsed old ws val rest hm]
    have hval : val = q.data := by
      have := congrArg String.data hv
      rwa [data_mk] at this
    rw [hval]
  · rw [ho]
    exact firstNameLineValue_start q r c0 hq0 hws0 hnl hr

/-! ### Lemmas about `ensure_has_correct_name` -/

theorem ensure_files (l : Link) (fs : Files) (f old : String)
    (hres : resolvedDestFile l = some f) (hold : lookupF fs f = some old) :
    lookupF (ensure_has_correct_name l fs).1 f = some (outC (quotedName l) old) := by
  simp only [ensure_has_correct_name, hres, hold]
  by_cases hg : ensure_new_content (quotedName l) old ≠ "" ∧
      ensure_new_content (quotedName l) old ≠ old
  · rw [if_pos hg]
    simp only [PREVENT_EDIT_WORKFLOW_NAME, if_neg Bool.false_ne_true]
    rw [lookupF_setF, if_pos rfl]
    simp only [outC, if_pos hg]
  · rw [if_neg hg]
    simp only [outC, if_neg hg]
    exact hold

theorem ensure_noop_none (l : Link) (fs : Files)
    (hres : resolvedDestFile l = none) :
    ensure_has_correct_name l fs = (fs, []) := by
  simp [ensure_has_correct_name, hres]

theorem ensure_noop_nofile (l : Link) (fs : Files) (f : String)
    (hres : resolvedDestFile l = some f) (h : lookupF fs f = none) :
    ensure_has_correct_name l fs = (fs, []) := by
  simp [ensure_has_correct_name, hres, h]

theorem ensure_noop_stable (l : Link) (fs : Files) (f c : String)
    (hres : resolvedDestFile l = some f) (hc : lookupF fs f = some c)
    (hstable : ensure_new_content (quotedName l) c = "") :
    ensure_has_correct_name l fs = (fs, []) := by
  simp only [ensure_has_correct_name, hres, hc, hstable]
  rw [if_neg (fun hand => hand.1 rfl)]

/-! ### Newline-freedom of the quoted display name -/

theorem joinSep_no_newline (sep : String) (hsep : ('\n' : Char) ∉ sep.data) :
    ∀ (parts : List String), (∀ p ∈ parts, ('\n' : Char) ∉ p.data) →
    ('\n' : Char) ∉ (joinSep sep parts).data
  | [], _ => by
    intro h
    cases h
  | [x], h => h x (List.mem_singleton.mpr rfl)
  | x :: y :: t, h => by
    intro hmem
    rw [joinSep, sdata_append, sdata_append] at hmem
    rcases List.mem_append.mp hmem with hmem | hmem
    · rcases List.mem_append.mp hmem with hmem | hmem
      · exact h x (List.mem_cons_self x (y :: t)) hmem
      · exact hsep hmem
    · exact joinSep_no_newline sep hsep (y :: t)
        (fun p hp => h p (List.mem_cons_of_mem x hp)) hmem

theorem quotedName_head (l : Link) : (quotedName l).data.head? = some '\"' := rfl

theorem quotedName_no_newline (l : Link)
    (h : ∀ p ∈ nameNormParts l, ('\n' : Char) ∉ p.data) :
    ('\n' : Char) ∉ (quotedName l).data := by
  intro hmem
  rw [quotedName, sdata_append, sdata_append] at hmem
  rcases List.mem_append.mp hmem with hmem | hmem
  · rcases List.mem_append.mp hmem with hmem | hmem
    · revert hmem
      decide
    · exact joinSep_no_newline "/" (by decide) (nameNormParts l) h hmem
  · revert hmem
    decide

/-! ### Path-resolution lemmas -/

theorem normPathAux_all_push : ∀ (ys : List String) (st : List String),
    (∀ y ∈ ys, y ≠ "..") → normPathAux st ys = st.reverse ++ ys
  | [], st, _ => by simp [normPathAux]
  | y :: ys, st, h => by
    have hy : ¬ y = ".." := h y (List.mem_cons_self y ys)
    simp only [normPathAux, hy, ite_false,
      normPathAux_all_push ys (y :: st) (fun x hx => h x (List.mem_cons_of_mem y hx))]
    simp [List.reverse_cons, List.append_assoc]

theorem normPathAux_push : ∀ (xs : List String) (st rest : List String),
    (∀ x ∈ xs, x ≠ "..") →
    normPathAux st (xs ++ rest) = normPathAux (xs.reverse ++ st) rest
  | [], _, _, _ => rfl
  | x :: xs, st, rest, h => by
    have hx : ¬ x = ".." := h x (List.mem_cons_self x xs)
    show normPathAux st (x :: (xs ++ rest)) = _
    simp only [normPathAux, hx, ite_false,
      normPathAux_push xs (x :: st) rest (fun c hc => h c (List.mem_cons_of_mem x hc))]
    simp [List.reverse_cons, List.append_assoc]

theorem normPathAux_pop : ∀ (zs : List String) (st rest : List String),
    (∀ x ∈ zs, x ≠ "..") →
    normPathAux (zs ++ st) (List.replicate zs.length ".." ++ rest) = normPathAux st rest
  | [], _, _, _ => rfl
  | z :: zs, st, rest, h => by
    have hz : ¬ z = ".." := h z (List.mem_cons_self z zs)
    show normPathAux (z :: (zs ++ st)) (".." :: (List.replicate zs.length ".." ++ rest)) = _
    simp only [normPathAux, ite_true, hz, ite_false]
    exact normPathAux_pop zs st rest (fun x hx => h x (List.mem_cons_of_mem z hx))

theorem normPathAux_append_free (m : List String) : ∀ (st ys : List String),
    (∀ y ∈ ys, y ≠ "..") → normPathAux st (m ++ ys) = normPathAux st m ++ ys := by
  induction m with
  | nil =>
    intro st ys h
    rw [List.nil_append, normPathAux_all_push ys st h]
    rfl
  | cons c m ih =>
    intro st ys h
    show normPathAux st (c :: (m ++ ys)) = normPathAux st (c :: m) ++ ys
    by_cases hc : c = ".."
    · subst hc
      cases st with
      | nil =>
        simp only [normPathAux, ite_true]
        exact ih [".."] ys h
      | cons top s =>
        by_cases ht : top = ".."
        · subst ht
          simp only [normPathAux, ite_true]
          exact ih (".." :: ".." :: s) ys h
        · simp only [normPathAux, ite_true, ht, ite_false]
          exact ih s ys h
    · simp only [normPathAux, hc, ite_false]
      exact ih (c :: st) ys h

theorem normPath_cancel (pp : List String) (h : ∀ x ∈ pp, x ≠ "..") :
    normPathAux [] (pp ++ List.replicate pp.length "..") = [] := by
  rw [normPathAux_push pp [] (List.replicate pp.length "..") h, List.append_nil]
  have hrev : ∀ x ∈ pp.reverse, x ≠ ".." := fun x hx => h x (List.mem_reverse.mp hx)
  have hpop := normPathAux_pop pp.reverse [] [] hrev
  rw [List.append_nil, List.append_nil, List.length_reverse] at hpop
  rw [hpop]
  rfl

theorem wf_filename_norm_ne_dotdot (l : Link) : wf_filename_norm l ≠ ".." := by
  intro he
  have hd := congrArg String.data he
  rw [wf_filename_norm, sdata_append] at hd
  have hlen := congrArg List.length hd
  rw [List.length_append] at hlen
  have h4 : (".yml".data).length = 4 := rfl
  have h2 : ("..".data).length = 2 := rfl
  omega

theorem resolveLink_of_norm (l : Link) (h : l.target = target_norm l) :
    resolveLink l =
      normPathAux [] (l.parentParts ++ List.replicate l.parentParts.length "..") ++
        (GITHUB_WORKFLOWS_DIR ++ [wf_filename_norm l]) := by
  have hys : ∀ y ∈ (GITHUB_WORKFLOWS_DIR ++ [wf_filename_norm l]), y ≠ ".." := by
    intro y hy
    rcases List.mem_append.mp hy with hy | hy
    · have h2 : y = ".github" ∨ y = "workflows" := by
        simpa [GITHUB_WORKFLOWS_DIR] using hy
      rcases h2 with rfl | rfl <;> decide
    · have h2 : y = wf_filename_norm l := by simpa using hy
      rw [h2]
      exact wf_filename_norm_ne_dotdot l
  rw [resolveLink, h, target_norm, normPath]
  rw [show List.replicate l.parentParts.length ".." ++ GITHUB_WORKFLOWS_DIR ++
        [wf_filename_norm l] =
      List.replicate l.parentParts.length ".." ++
        (GITHUB_WORKFLOWS_DIR ++ [wf_filename_norm l]) from by
    simp [List.append_assoc]]
  rw [← List.append_assoc]
  exact normPathAux_append_free _ [] _ hys

theorem resolvedDestFile_some (l : Link) (h : l.target = target_norm l)
    (hpp : ∀ x ∈ l.parentParts, x ≠ "..") :
    resolvedDestFile l = some (wf_filename_norm l) := by
  have hres := resolveLink_of_norm l h
  rw [normPath_cancel l.parentParts hpp, List.nil_append] at hres
  rw [resolvedDestFile, hres]
  rfl

theorem resolvedDestFile_cases (l : Link) (h : l.target = target_norm l) :
    resolvedDestFile l = none ∨ resolvedDestFile l = some (wf_filename_norm l) := by
  have hres := resolveLink_of_norm l h
  cases hP : normPathAux [] (l.parentParts ++ List.replicate l.parentParts.length "..") with
  | nil =>
    right
    rw [hP, List.nil_append] at hres
    rw [resolvedDestFile, hres]
    rfl
  | cons p ps =>
    left
    rw [hP] at hres
    rw [resolvedDestFile, hres]
    rw [if_neg]
    intro hand
    have hlen := hand.1
    rw [List.cons_append, List.length_cons, List.length_append] at hlen
    have h3 : ((GITHUB_WORKFLOWS_DIR ++ [wf_filename_norm l])).length = 3 := rfl
    omega

/-! ### Claim theorems, part 1 -/

/-- C4: segment validation is claimed to accept exactly the segments made of
allowed characters that do not start or end with a hyphen or period, and the
script's own `_LogCrit.invalid_path` message documents the same rule; but
`WF_FILENAME_PATTERN = ^[a-zA-Z0-9_][a-zA-Z0-9_.-]*[a-zA-Z0-9_]$` forces at
least two characters, so the single-character segment `"a"` satisfies the
documented rule yet is rejected by the code. -/
theorem C4_code_evaluation :
    is_str_valid_wf_filename "a" = false ∧ spec_segment_ok "a" = true := by decide

/-- C7: for every non-empty segment sequence, the canonical filename is the
segments joined by `"--"` suffixed with `".yml"` and the canonical display
name is the segments joined by `"/"`; in particular `["a", "b"]` yields
`"a--b.yml"` and `"a/b"`.  (The claim's validity qualifier is immaterial:
the two derivations do not inspect the segments.) -/
theorem C7_canonical_names (segs : List String) (hne : segs ≠ [])
    (sym : Bool) (tgt : List String) :
    wf_filename_norm ⟨"Workflows" :: segs, sym, tgt⟩ = joinSep "--" segs ++ ".yml" ∧
    wf_name_norm ⟨"Workflows" :: segs, sym, tgt⟩ = joinSep "/" segs ∧
    wf_filename_norm ⟨["Workflows", "a", "b"], sym, tgt⟩ = "a--b.yml" ∧
    wf_name_norm ⟨["Workflows", "a", "b"], sym, tgt⟩ = "a/b" :=
  ⟨rfl, rfl, rfl, rfl⟩

/-- Witness for C7 at the concrete segment sequence `["a", "b"]`. -/
theorem C7_witness :
    wf_filename_norm ⟨"Workflows" :: ["a", "b"], true, []⟩ =
      joinSep "--" ["a", "b"] ++ ".yml" ∧
    wf_name_norm ⟨"Workflows" :: ["a", "b"], true, []⟩ = joinSep "/" ["a", "b"] ∧
    wf_filename_norm ⟨["Workflows", "a", "b"], true, []⟩ = "a--b.yml" ∧
    wf_name_norm ⟨["Workflows", "a", "b"], true, []⟩ = "a/b" :=
  C7_canonical_names ["a", "b"] (by decide) true []

/-- C10: `main` always returns exit status 0 once the walk and sweep
complete, whatever happened per link. -/
theorem C10_exit_status (links : List Link) (fs : Files) :
    (mainRun links fs).status = 0 := rfl

/-- C9: after the sweep, a destination file is present with its pre-sweep
content exactly when its name is on the whitelist of target filenames of the
successfully processed links; every other file is deleted. -/
theorem C9_sweep (links : List Link) (fs : Files) (n : String) :
    lookupF (mainRun links fs).files n =
      if ((find_validate_and_fix_links links fs).valid.map targetName).contains n
      then lookupF (find_validate_and_fix_links links fs).files n
      else none := by
  have h := lookupF_filter_contains
    ((find_validate_and_fix_links links fs).valid.map targetName)
    (find_validate_and_fix_links links fs).files n
  simpa [mainRun, remove_bad_workflow_files,
    PREVENT_UNLINK_UNRECOGNIZED_WORKFLOW_FILES] using h

/-- C5: a link whose current target file and canonical target file are both
absent is reported unrecoverable with no filesystem mutation, is not added to
the result list (hence not to the whitelist), and the remaining links are
processed exactly as if the link were absent. -/
theorem C5_unrecoverable_skip (l : Link) (rest : List Link) (fs : Files)
    (hsym : l.isSymlink = true) (hparts : subpath_parts_are_valid l = none)
    (h1 : lookupF fs (targetName l) = none)
    (h2 : lookupF fs (wf_filename_norm l) = none) :
    validate_and_process_link l fs = ⟨some Failure.unrecoverable, l, fs, []⟩ ∧
    find_validate_and_fix_links (l :: rest) fs =
      ⟨(find_validate_and_fix_links rest fs).valid,
       l :: (find_validate_and_fix_links rest fs).links,
       (find_validate_and_fix_links rest fs).files,
       (find_validate_and_fix_links rest fs).trace⟩ := by
  have hfix := fix_eq_unrec l fs h1 h2
  have hstep : validate_and_process_link l fs = ⟨some Failure.unrecoverable, l, fs, []⟩ := by
    have := process_unrec l fs hsym hparts (by rw [hfix])
    rw [hfix] at this
    exact this
  refine ⟨hstep, ?_⟩
  rw [run_cons, hstep]
  simp

/-- Witness for C5: a dangling link with no canonical file in an empty
destination directory. -/
theorem C5_witness :
    validate_and_process_link exA [] = ⟨some Failure.unrecoverable, exA, [], []⟩ ∧
    find_validate_and_fix_links (exA :: []) [] =
      ⟨(find_validate_and_fix_links [] []).valid,
       exA :: (find_validate_and_fix_links [] []).links,
       (find_validate_and_fix_links [] []).files,
       (find_validate_and_fix_links [] []).trace⟩ :=
  C5_unrecoverable_skip exA [] [] (by decide) (by decide) (by decide) (by decide)

/-- C6: when the current target file exists under a non-canonical name and
the canonical name is absent, the fix renames the file to the canonical name
and then relinks, in that order, the renamed file carries the old content,
the old name is gone, processing succeeds, and the canonical filename enters
the whitelist. -/
theorem C6_rename_then_relink (l : Link) (rest : List Link) (fs : Files) (c : String)
    (hsym : l.isSymlink = true) (hparts : subpath_parts_are_valid l = none)
    (hex : lookupF fs (targetName l) = some c)
    (hne : ¬ targetName l = wf_filename_norm l)
    (habs : lookupF fs (wf_filename_norm l) = none) :
    validate_and_fix_link l fs =
      ⟨true, { l with isSymlink := true, target := target_norm l },
       renameF fs (targetName l) (wf_filename_norm l),
       [Op.rename (targetName l) (wf_filename_norm l), Op.unlink l.parentParts,
        Op.symlink l.parentParts (target_norm l)]⟩ ∧
    lookupF (renameF fs (targetName l) (wf_filename_norm l)) (wf_filename_norm l) = some c ∧
    lookupF (renameF fs (targetName l) (wf_filename_norm l)) (targetName l) = none ∧
    (validate_and_process_link l fs).failure = none ∧
    wf_filename_norm l ∈
      ((find_validate_and_fix_links (l :: rest) fs).valid.map targetName) := by
  have hfix := fix_eq_rename l fs c hex hne
  have hok : (validate_and_fix_link l fs).ok = true := by rw [hfix]
  have hstep := process_ok l fs hsym hparts hok
  refine ⟨hfix, lookupF_renameF_new fs _ _ c hex, lookupF_renameF_old fs _ _ c hex hne,
    by rw [hstep], ?_⟩
  rw [run_cons, hstep]
  have hname : targetName (validate_and_fix_link l fs).link = wf_filename_norm l := by
    rw [hfix]
    exact targetName_of_norm _ rfl
  simp [hname]

/-- Witness for C6: `Workflows/aa/workflow.yml` points at existing
`old.yml`; the canonical `aa.yml` is absent. -/
theorem C6_witness :
    validate_and_fix_link exC exFs =
      ⟨true, { exC with isSymlink := true, target := target_norm exC },
       renameF exFs (targetName exC) (wf_filename_norm exC),
       [Op.rename (targetName exC) (wf_filename_norm exC), Op.unlink exC.parentParts,
        Op.symlink exC.parentParts (target_norm exC)]⟩ ∧
    lookupF (renameF exFs (targetName exC) (wf_filename_norm exC))
      (wf_filename_norm exC) = some "x" ∧
    lookupF (renameF exFs (targetName exC) (wf_filename_norm exC))
      (targetName exC) = none ∧
    (validate_and_process_link exC exFs).failure = none ∧
    wf_filename_norm exC ∈
      ((find_validate_and_fix_links (exC :: []) exFs).valid.map targetName) :=
  C6_rename_then_relink exC [] exFs "x" (by decide) (by decide) (by decide)
    (by decide) (by decide)

/-- C8, counterexample: the claim says the rename fails whenever the
destination exists and never silently overwrites; but with `old.yml` the
current target and `aa.yml` (content `"Y"`) already present, the fix succeeds
and `aa.yml` afterwards holds `old.yml`'s content `"X"` — the pre-existing
file was silently replaced (POSIX `os.rename` semantics). -/
theorem C8_counterexample :
    (validate_and_fix_link exC exFs2).ok = true ∧
    lookupF (validate_and_fix_link exC exFs2).files "aa.yml" = some "X" ∧
    lookupF (validate_and_fix_link exC exFs2).files "old.yml" = none ∧
    lookupF exFs2 "aa.yml" = some "Y" := by decide

/-- C8, amended: whenever the current target file exists under a
non-canonical name and a file already exists under the canonical name, the
rename silently replaces it — the fix still succeeds and the canonical name
afterwards holds the renamed file's content, with no conflict error of any
kind. -/
theorem C8_amended (l : Link) (fs : Files) (c c0 : String)
    (hex : lookupF fs (targetName l) = some c)
    (hne : ¬ targetName l = wf_filename_norm l)
    (hpres : lookupF fs (wf_filename_norm l) = some c0) :
    (validate_and_fix_link l fs).ok = true ∧
    lookupF (validate_and_fix_link l fs).files (wf_filename_norm l) = some c ∧
    lookupF (validate_and_fix_link l fs).files (targetName l) = none := by
  have hfix := fix_eq_rename l fs c hex hne
  rw [hfix]
  exact ⟨rfl, lookupF_renameF_new fs _ _ c hex, lookupF_renameF_old fs _ _ c hex hne⟩

/-- Witness for the amended C8 at the concrete overwrite scenario. -/
theorem C8_amended_witness :
    (validate_and_fix_link exC exFs2).ok = true ∧
    lookupF (validate_and_fix_link exC exFs2).files (wf_filename_norm exC) = some "X" ∧
    lookupF (validate_and_fix_link exC exFs2).files (targetName exC) = none :=
  C8_amended exC exFs2 "X" "Y" (by decide) (by decide) (by decide)

/-- A valid path segment is never the component `".."`. -/
theorem valid_ne_dotdot (s : String) (h : is_str_valid_wf_filename s = true) :
    s ≠ ".." := by
  intro he
  subst he
  exact absurd h (by decide)

/-- If segment validation passes, every part is valid. -/
theorem subpath_valid_all (l : Link) (h : subpath_parts_are_valid l = none) :
    ∀ p ∈ nameNormParts l, is_str_valid_wf_filename p = true := by
  intro p hp
  have hnp := List.find?_eq_none.mp h p hp
  cases hv : is_str_valid_wf_filename p
  · exact absurd (by rw [hv]; rfl) hnp
  · rfl

/-- A successful fix leaves the link relinked at (or already at) its
normalized target, with the canonical file present. -/
theorem fix_ok_link (l : Link) (fs : Files) (hsym : l.isSymlink = true)
    (hok : (validate_and_fix_link l fs).ok = true) :
    (validate_and_fix_link l fs).link =
      { l with isSymlink := true, target := target_norm l } ∧
    ∃ c, lookupF (validate_and_fix_link l fs).files (wf_filename_norm l) = some c := by
  cases h1 : lookupF fs (targetName l) with
  | none =>
    cases h2 : lookupF fs (wf_filename_norm l) with
    | none =>
      rw [fix_eq_unrec l fs h1 h2] at hok
      simp at hok
    | some c =>
      rw [fix_eq_relink_dangling l fs c h1 h2]
      exact ⟨rfl, c, h2⟩
  | some c =>
    by_cases h2 : targetName l = wf_filename_norm l
    · by_cases h3 : l.target = target_norm l
      · rw [fix_eq_noop l fs c h1 h2 h3]
        constructor
        · show l = _
          rw [← hsym, ← h3]
        · exact ⟨c, h2 ▸ h1⟩
      · rw [fix_eq_relink_depth l fs c h1 h2 h3]
        exact ⟨rfl, c, h2 ▸ h1⟩
    · rw [fix_eq_rename l fs c h1 h2]
      exact ⟨rfl, c, lookupF_renameF_new fs _ _ c h1⟩

/-- The parent components of a walked link (`"Workflows"` head, validated
parts) never contain `".."`. -/
theorem parentParts_ne_dotdot (l : Link)
    (hw : l.parentParts.head? = some "Workflows")
    (hvalid : ∀ p ∈ nameNormParts l, is_str_valid_wf_filename p = true) :
    ∀ x ∈ l.parentParts, x ≠ ".." := by
  intro x hx
  cases hpl : l.parentParts with
  | nil =>
    rw [hpl] at hx
    cases hx
  | cons a t =>
    rw [hpl] at hw hx
    have ha : a = "Workflows" := by
      cases hw
      rfl
    rcases List.mem_cons.mp hx with hx | hx
    · rw [hx, ha]
      decide
    · have ht : t = nameNormParts l := by rw [nameNormParts, hpl]; rfl
      exact valid_ne_dotdot x (hvalid x (ht ▸ hx))

/-- A failed fix changes nothing. -/
theorem fix_false_eq (l : Link) (fs : Files)
    (h : (validate_and_fix_link l fs).ok = false) :
    validate_and_fix_link l fs = ⟨false, l, fs, []⟩ := by
  cases h1 : lookupF fs (targetName l) with
  | none =>
    cases h2 : lookupF fs (wf_filename_norm l) with
    | none => exact fix_eq_unrec l fs h1 h2
    | some c =>
      rw [fix_eq_relink_dangling l fs c h1 h2] at h
      simp at h
  | some c =>
    by_cases h2 : targetName l = wf_filename_norm l
    · by_cases h3 : l.target = target_norm l
      · rw [fix_eq_noop l fs c h1 h2 h3] at h
        simp at h
      · rw [fix_eq_relink_depth l fs c h1 h2 h3] at h
        simp at h
    · rw [fix_eq_rename l fs c h1 h2] at h
      simp at h

/-- A failed processing step changes nothing. -/
theorem process_fail_eq (l : Link) (fs : Files) (f : Failure)
    (h : (validate_and_process_link l fs).failure = some f) :
    validate_and_process_link l fs = ⟨some f, l, fs, []⟩ := by
  cases hsym : l.isSymlink with
  | false =>
    have hstep := process_not_symlink l fs hsym
    rw [hstep] at h
    cases h
    exact hstep
  | true =>
    cases hp : subpath_parts_are_valid l with
    | some part =>
      have hstep := process_invalid l fs part hsym hp
      rw [hstep] at h
      cases h
      exact hstep
    | none =>
      cases hok : (validate_and_fix_link l fs).ok with
      | true =>
        rw [process_ok l fs hsym hp hok] at h
        cases h
      | false =>
        have hfix := fix_false_eq l fs hok
        have hstep := process_unrec l fs hsym hp hok
        rw [hfix] at hstep
        rw [hstep] at h
        cases h
        exact hstep

/-- Processing any link against an empty destination directory fails. -/
theorem process_nil_fail (l : Link) :
    ∃ f, validate_and_process_link l ([] : Files) = ⟨some f, l, [], []⟩ := by
  cases hsym : l.isSymlink with
  | false => exact ⟨Failure.notSymlink, process_not_symlink l [] hsym⟩
  | true =>
    cases hp : subpath_parts_are_valid l with
    | some part => exact ⟨Failure.invalidPart part, process_invalid l [] part hsym hp⟩
    | none =>
      have hfix : validate_and_fix_link l [] = ⟨false, l, [], []⟩ :=
        fix_eq_unrec l [] rfl rfl
      have hstep := process_unrec l [] hsym hp (by rw [hfix])
      rw [hfix] at hstep
      exact ⟨Failure.unrecoverable, hstep⟩

/-- Re-processing a fully canonical link whose target file is present and
whose content patch is a no-op changes nothing and succeeds. -/
theorem process_norm_noop (l2 : Link) (fs' : Files) (c : String)
    (hsym : l2.isSymlink = true)
    (hp : subpath_parts_are_valid l2 = none)
    (htar : l2.target = target_norm l2)
    (hc : lookupF fs' (wf_filename_norm l2) = some c)
    (hens : ensure_has_correct_name l2 fs' = (fs', [])) :
    validate_and_process_link l2 fs' = ⟨none, l2, fs', []⟩ := by
  have htn := targetName_of_norm l2 htar
  have hfix := fix_eq_noop l2 fs' c (by rw [htn]; exact hc) htn htar
  have hstep := process_ok l2 fs' hsym hp (by rw [hfix])
  rw [hstep, hfix, hens]
  rfl

/-- Sweeping an already swept directory keeps it unchanged. -/
theorem filter_contains_idem (wl : List String) (fs : Files) :
    (fs.filter (fun p => wl.contains p.1)).filter (fun p => wl.contains p.1) =
      fs.filter (fun p => wl.contains p.1) := by
  apply List.filter_eq_self.mpr
  intro a ha
  exact (List.mem_filter.mp ha).2

/-- An already swept directory has nothing left to delete. -/
theorem filter_not_contains_nil (wl : List String) (fs : Files) :
    (fs.filter (fun p => wl.contains p.1)).filter (fun p => !(wl.contains p.1)) = [] := by
  apply List.filter_eq_nil.mpr
  intro a ha
  have h2 := (List.mem_filter.mp ha).2
  simpa using h2

/-- The empty whitelist keeps nothing. -/
theorem filter_contains_nil : ∀ (fs : Files),
    fs.filter (fun p => ([] : List String).contains p.1) = []
  | [] => rfl
  | hd :: tl => by
    rw [List.filter_cons]
    have hfalse : (([] : List String).contains hd.1) = false := rfl
    rw [hfalse]
    simpa using filter_contains_nil tl

/-- Unfolded form of `mainRun`. -/
theorem mainRun_eq (links : List Link) (fs : Files) :
    mainRun links fs =
      ⟨(find_validate_and_fix_links links fs).valid,
       (find_validate_and_fix_links links fs).links,
       ((find_validate_and_fix_links links fs).files).filter
         (fun p => (((find_validate_and_fix_links links fs).valid.map targetName)).contains p.1),
       (find_validate_and_fix_links links fs).trace ++
         (((find_validate_and_fix_links links fs).files).filter
           (fun p => !((((find_validate_and_fix_links links fs).valid.map targetName)).contains p.1))).map
           (fun p => Op.deleteFile p.1),
       0⟩ := by
  simp [mainRun, remove_bad_workflow_files, PREVENT_UNLINK_UNRECOGNIZED_WORKFLOW_FILES]

/-- The one-link walk. -/
theorem run_single (l : Link) (fs : Files) :
    find_validate_and_fix_links [l] fs =
      ⟨if (validate_and_process_link l fs).failure = none
         then [(validate_and_process_link l fs).link] else [],
       [(validate_and_process_link l fs).link],
       (validate_and_process_link l fs).files,
       (validate_and_process_link l fs).trace⟩ := by
  rw [run_cons]
  show RunResult.mk _ _ _ _ = _
  rw [show find_validate_and_fix_links [] (validate_and_process_link l fs).files =
      ⟨[], [], (validate_and_process_link l fs).files, []⟩ from rfl]
  simp

/-- A one-link run that succeeds: full description of `main`'s result. -/
theorem mainRun_single_ok (l : Link) (fs : Files) (L2 : Link) (fs3 : Files) (tr : List Op)
    (hstep : validate_and_process_link l fs = ⟨none, L2, fs3, tr⟩)
    (htn : targetName L2 = wf_filename_norm L2) :
    mainRun [l] fs =
      ⟨[L2], [L2],
       fs3.filter (fun p => [wf_filename_norm L2].contains p.1),
       tr ++ (fs3.filter (fun p => !([wf_filename_norm L2].contains p.1))).map
         (fun p => Op.deleteFile p.1), 0⟩ := by
  rw [mainRun_eq, run_single, hstep]
  simp [htn]

/-- Running `main` again on the state left by a successful one-link run is a
no-op, provided re-reading the canonical file patches nothing. -/
theorem second_run_noop (L2 : Link) (FS3 : Files) (c1 : String)
    (htar2 : L2.target = target_norm L2)
    (hp2 : subpath_parts_are_valid L2 = none)
    (hsym2 : L2.isSymlink = true)
    (hc3 : lookupF FS3 (wf_filename_norm L2) = some c1)
    (hens2 : ∀ fsx : Files, lookupF fsx (wf_filename_norm L2) = some c1 →
      ensure_has_correct_name L2 fsx = (fsx, [])) :
    (mainRun [L2] (FS3.filter (fun p => [wf_filename_norm L2].contains p.1))).trace = [] ∧
    (mainRun [L2] (FS3.filter (fun p => [wf_filename_norm L2].contains p.1))).files =
      FS3.filter (fun p => [wf_filename_norm L2].contains p.1) ∧
    (mainRun [L2] (FS3.filter (fun p => [wf_filename_norm L2].contains p.1))).links = [L2] := by
  have htn2 := targetName_of_norm L2 htar2
  have hlook : lookupF (FS3.filter (fun p => [wf_filename_norm L2].contains p.1))
      (wf_filename_norm L2) = some c1 := by
    rw [lookupF_filter_contains, if_pos (by simp)]
    exact hc3
  have hstep2 := process_norm_noop L2 _ c1 hsym2 hp2 htar2 hlook (hens2 _ hlook)
  have hm2 := mainRun_single_ok L2 _ L2 _ [] hstep2 htn2
  refine ⟨?_, ?_, ?_⟩ <;> rw [hm2]
  · rw [filter_not_contains_nil]
    rfl
  · exact filter_contains_idem _ _

/-- C2, amended: for a source tree containing a single workflow link none of
whose path segments contains a newline, running the full repair (walk, fix,
content patch, sweep) a second time on the state left by the first run
performs no mutation: its trace is empty and the filesystem state and link
states after the second run equal those after the first.  The restriction to
one link is forced by the counterexample: with several links, a dangling
link whose target name collides with another link's canonical filename makes
the second run rename files again. -/
theorem C2_amended (l : Link) (fs : Files)
    (hnl : ∀ p ∈ nameNormParts l, ('\n' : Char) ∉ p.data) :
    (mainRun (mainRun [l] fs).links (mainRun [l] fs).files).trace = [] ∧
    (mainRun (mainRun [l] fs).links (mainRun [l] fs).files).files = (mainRun [l] fs).files ∧
    (mainRun (mainRun [l] fs).links (mainRun [l] fs).files).links = (mainRun [l] fs).links := by
  cases hfail : (validate_and_process_link l fs).failure with
  | some f =>
    have hstep1 := process_fail_eq l fs f hfail
    have hrun1 : find_validate_and_fix_links [l] fs = ⟨[], [l], fs, []⟩ := by
      rw [run_single, hstep1]
      simp
    have hfiles1 : (mainRun [l] fs).files = [] := by
      rw [mainRun_eq, hrun1]
      exact filter_contains_nil fs
    have hlinks1 : (mainRun [l] fs).links = [l] := by
      rw [mainRun_eq, hrun1]
    rw [hfiles1, hlinks1]
    obtain ⟨f2, hstep2⟩ := process_nil_fail l
    have hrun2 : find_validate_and_fix_links [l] ([] : Files) = ⟨[], [l], [], []⟩ := by
      rw [run_single, hstep2]
      simp
    refine ⟨?_, ?_, ?_⟩ <;> (rw [mainRun_eq, hrun2]; try rfl)
  | none =>
    cases hsym : l.isSymlink with
    | false =>
      rw [process_not_symlink l fs hsym] at hfail
      exact Option.noConfusion hfail
    | true =>
      cases hp : subpath_parts_are_valid l with
      | some part =>
        rw [process_invalid l fs part hsym hp] at hfail
        exact Option.noConfusion hfail
      | none =>
        cases hok : (validate_and_fix_link l fs).ok with
        | false =>
          rw [process_unrec l fs hsym hp hok] at hfail
          exact Option.noConfusion hfail
        | true =>
          obtain ⟨hlink, c0, hc0⟩ := fix_ok_link l fs hsym hok
          have hstep := process_ok l fs hsym hp hok
          rw [hlink] at hstep
          have htar2 : ({ l with isSymlink := true, target := target_norm l } : Link).target =
              target_norm { l with isSymlink := true, target := target_norm l } := rfl
          have htn2 := targetName_of_norm _ htar2
          have hm1 := mainRun_single_ok l fs _ _ _ hstep htn2
          have hfiles1 : (mainRun [l] fs).files =
              ((ensure_has_correct_name { l with isSymlink := true, target := target_norm l }
                  (validate_and_fix_link l fs).files).1).filter
                (fun p => [wf_filename_norm
                  ({ l with isSymlink := true, target := target_norm l } : Link)].contains p.1) := by
            rw [hm1]
          have hlinks1 : (mainRun [l] fs).links =
              [{ l with isSymlink := true, target := target_norm l }] := by
            rw [hm1]
          rw [hfiles1, hlinks1]
          have hq0 := quotedName_head l
          have hnlq := quotedName_no_newline l hnl
          rcases resolvedDestFile_cases _ htar2 with hresn | hres
          · have hens1 := ensure_noop_none { l with isSymlink := true, target := target_norm l }
              (validate_and_fix_link l fs).files hresn
            have hc3 : lookupF (ensure_has_correct_name
                { l with isSymlink := true, target := target_norm l }
                (validate_and_fix_link l fs).files).1
                (wf_filename_norm ({ l with isSymlink := true, target := target_norm l } : Link)) =
                some c0 := by
              rw [hens1]
              exact hc0
            exact second_run_noop _ _ c0 htar2 hp rfl hc3
              (fun fsx _ => ensure_noop_none _ fsx hresn)
          · have hfile := ensure_files { l with isSymlink := true, target := target_norm l }
              (validate_and_fix_link l fs).files
              (wf_filename_norm ({ l with isSymlink := true, target := target_norm l } : Link))
              c0 hres hc0
            have hstable := ensure_new_content_outC (quotedName l) c0 '\"' hq0 (by decide) hnlq
            exact second_run_noop _ _
              (outC (quotedName ({ l with isSymlink := true, target := target_norm l } : Link)) c0)
              htar2 hp rfl hfile
              (fun fsx hx => ensure_noop_stable _ fsx _ _ hres hx hstable)

/-- Witness for the amended C2: the single link `Workflows/aa/workflow.yml`
over the one-file directory. -/
theorem C2_amended_witness :
    (mainRun (mainRun [exC] exFs).links (mainRun [exC] exFs).files).trace = [] ∧
    (mainRun (mainRun [exC] exFs).links (mainRun [exC] exFs).files).files =
      (mainRun [exC] exFs).files ∧
    (mainRun (mainRun [exC] exFs).links (mainRun [exC] exFs).files).links =
      (mainRun [exC] exFs).links :=
  C2_amended exC exFs (by decide)

/-- C2, counterexample: on the two-link tree where `Workflows/aa`'s link
dangles at `bb.yml` and `Workflows/bb`'s link points at the existing
`old.yml`, the first run renames `old.yml` to `bb.yml`; the second run then
finds `bb.yml` — another link's canonical file — as `aa`'s target, renames it
again, relinks and rewrites content: the second run both mutates (nonempty
trace) and changes the filesystem state. -/
theorem C2_counterexample :
    (mainRun (mainRun [exA, exB] exFs).links (mainRun [exA, exB] exFs).files).trace ≠ [] ∧
    (mainRun (mainRun [exA, exB] exFs).links (mainRun [exA, exB] exFs).files).files ≠
      (mainRun [exA, exB] exFs).files := by decide

/-- C3, counterexample: the claim says the patcher finds the first matching
`name:` line anywhere in the file and preserves the whitespace between key
and value; the code's pattern has no `re.MULTILINE`, so `^` matches only at
position 0: on `"# c\nname: \"x\"\n"` the code prepends a new line instead of
patching line 2 (disagreeing with the spec-described patch), and on
`"name:\t\"x\""` the tab is replaced by a single space. -/
theorem C3_counterexample :
    outC "\"a/b\"" "# c\nname: \"x\"\n" = "name: \"a/b\"\n# c\nname: \"x\"\n" ∧
    spec_patch "\"a/b\"" "# c\nname: \"x\"\n" = "# c\nname: \"a/b\"\n" ∧
    outC "\"a/b\"" "# c\nname: \"x\"\n" ≠ spec_patch "\"a/b\"" "# c\nname: \"x\"\n" ∧
    outC "\"a/b\"" "name:\t\"x\"" = "name: \"a/b\"" := by decide

/-- C3, amended: the patcher matches only at the very start of the content
(a `name:` key beginning the file, Python `^` without `re.MULTILINE`); when
the captured value differs from the quoted canonical name it rewrites the
first line as `name: ` followed by the quoted name — replacing the original
key-to-value whitespace with a single space — and keeps every byte from the
first newline on unchanged; when the value already matches it makes no
change; and when the content does not start with `name:` it prepends a new
`name:` line instead. -/
theorem C3_amended (q : String) (ws val rest : List Char)
    (hws : ∀ c ∈ ws, wsChar c = true)
    (hhead : ∀ c, (val ++ rest).head? = some c → wsChar c = false)
    (hval : ∀ c ∈ val, c ≠ '\n')
    (hrest : ∀ c, rest.head? = some c → c = '\n') :
    (String.mk val ≠ q →
      ensure_new_content q (String.mk ("name:".data ++ (ws ++ (val ++ rest)))) =
        "name: " ++ q ++ String.mk rest) ∧
    (String.mk val = q →
      ensure_new_content q (String.mk ("name:".data ++ (ws ++ (val ++ rest)))) = "") ∧
    (∀ old : String, old.data.take 5 ≠ "name:".data →
      ensure_new_content q old = "name: " ++ q ++ "\n" ++ old) := by
  have hm := nameLineMatch_eq ws val rest hws hhead hval hrest
  refine ⟨?_, ?_, ?_⟩
  · intro hv
    simp only [ensure_new_content, data_mk, hm, if_neg hv]
  · intro hv
    simp only [ensure_new_content, data_mk, hm, if_pos hv]
  · intro old h
    have hnone : nameLineMatch old.data = none := by rw [nameLineMatch, if_neg h]
    simp only [ensure_new_content, hnone]

/-- Witness for the amended C3: content `name:<tab>"x"<newline>z` with
canonical quoted name `"a/b"`. -/
theorem C3_amended_witness :
    (String.mk ['\"', 'x', '\"'] ≠ "\"a/b\"" →
      ensure_new_content "\"a/b\""
          (String.mk ("name:".data ++ (['\t'] ++ (['\"', 'x', '\"'] ++ ['\n', 'z'])))) =
        "name: " ++ "\"a/b\"" ++ String.mk ['\n', 'z']) ∧
    (String.mk ['\"', 'x', '\"'] = "\"a/b\"" →
      ensure_new_content "\"a/b\""
          (String.mk ("name:".data ++ (['\t'] ++ (['\"', 'x', '\"'] ++ ['\n', 'z'])))) = "") ∧
    (∀ old : String, old.data.take 5 ≠ "name:".data →
      ensure_new_content "\"a/b\"" old = "name: " ++ "\"a/b\"" ++ "\n" ++ old) :=
  C3_amended "\"a/b\"" ['\t'] ['\"', 'x', '\"'] ['\n', 'z']
    (by decide) (by decide) (by decide) (by decide)

/-- C1, amended: for every workflow link the driver processes successfully
(walked from `Workflows`, so its first parent component is `"Workflows"`) and
none of whose path segments contains a newline character, after the run the
link's literal target equals the canonical relative target, the canonical
target file exists, and its first `name:` line (line-anchored reading) holds
the quoted canonical display name.  The newline hypothesis is forced by the
counterexample: `WF_FILENAME_PATTERN` accepts a segment with one trailing
newline, which breaks the written `name:` line. -/
theorem C1_amended (l : Link) (fs : Files)
    (hw : l.parentParts.head? = some "Workflows")
    (hnl : ∀ p ∈ nameNormParts l, ('\n' : Char) ∉ p.data)
    (hsucc : (validate_and_process_link l fs).failure = none) :
    (validate_and_process_link l fs).link.target = target_norm l ∧
    ∃ c, lookupF (validate_and_process_link l fs).files (wf_filename_norm l) = some c ∧
      firstNameLineValue c = some (quotedName l).data := by
  cases hsym : l.isSymlink with
  | false =>
    rw [process_not_symlink l fs hsym] at hsucc
    exact absurd hsucc (by simp)
  | true =>
    cases hp : subpath_parts_are_valid l with
    | some part =>
      rw [process_invalid l fs part hsym hp] at hsucc
      exact absurd hsucc (by simp)
    | none =>
      cases hok : (validate_and_fix_link l fs).ok with
      | false =>
        rw [process_unrec l fs hsym hp hok] at hsucc
        exact absurd hsucc (by simp)
      | true =>
        have hstep := process_ok l fs hsym hp hok
        obtain ⟨hlink, c0, hc0⟩ := fix_ok_link l fs hsym hok
        have hvalid := subpath_valid_all l hp
        have hpp := parentParts_ne_dotdot l hw hvalid
        have hres : resolvedDestFile (validate_and_fix_link l fs).link =
            some (wf_filename_norm l) := by
          rw [hlink]
          exact resolvedDestFile_some _ rfl hpp
        have hq0 := quotedName_head l
        have hnlq := quotedName_no_newline l hnl
        have hfile := ensure_files (validate_and_fix_link l fs).link
          (validate_and_fix_link l fs).files (wf_filename_norm l) c0 hres hc0
        rw [hstep]
        refine ⟨by rw [hlink], outC (quotedName l) c0, ?_, ?_⟩
        · have hq : quotedName (validate_and_fix_link l fs).link = quotedName l := by
            rw [hlink]
            rfl
          rw [hq] at hfile
          exact hfile
        · exact firstNameLineValue_outC (quotedName l) c0 '\"' hq0 (by decide) hnlq

/-- Witness for the amended C1: the link `Workflows/aa/workflow.yml` pointing
at existing `old.yml` is processed successfully and ends fully canonical. -/
theorem C1_amended_witness :
    (validate_and_process_link exC exFs).link.target = target_norm exC ∧
    ∃ c, lookupF (validate_and_process_link exC exFs).files (wf_filename_norm exC) = some c ∧
      firstNameLineValue c = some (quotedName exC).data :=
  C1_amended exC exFs (by decide) (by decide) (by decide)

/-- C1, counterexample: the segment `"ab\n"` (trailing newline) passes
`WF_FILENAME_PATTERN` because Python's `$` also matches before a final
newline, so the link is processed successfully; but the quoted display name
then contains a newline and the written first line is truncated at it, so the
first `name:` line of the target file does not hold the quoted canonical
display name. -/
theorem C1_counterexample :
    (validate_and_process_link exNl exNlFs).failure = none ∧
    lookupF (validate_and_process_link exNl exNlFs).files (wf_filename_norm exNl) =
      some "name: \"ab\n\"\nx" ∧
    firstNameLineValue "name: \"ab\n\"\nx" ≠ some (quotedName exNl).data := by decide

end WorkflowUpdate
